import Mathlib

/-!
# Verification of the putong timer library

Shallow embedding of `include/putong/timer.h` (the `putong` namespace):

* `Timer` embeds the interval timer: two `std::chrono::time_point<clock,
  nanoseconds>` members `start_` and `stop_` (value-initialised to the clock
  epoch, i.e. 0 ns), `Start`, `Stop` and `seconds`.
* `SplitTimer N` embeds `SplitTimer<num_splits>`: the `num_splits + 1` element
  timestamp array `splits`, the `std::atomic<size_t> split_idx` cursor, and
  the member functions `Start`, `Split`, `seconds`, `report`, the copy
  constructor and the copy assignment operator.

Modelling choices:

* Timestamps are nanosecond counts (`Int`), matching the `nanoseconds`
  representation of the time points; a default-constructed time point is the
  epoch, 0 ns.
* Converting a nanosecond difference to `duration<double>` (seconds) is
  modelled exactly over `ℚ` by `toSeconds` (division by 10^9).
* The clock is external: every operation that calls `clock::now()` takes the
  reading as an explicit argument, so a deterministic fake clock is an
  argument list.
* `splits` is a total function `Nat → Int`: indices `0 .. N` are the buffer,
  larger indices stand for memory outside the fixed buffer, so an
  out-of-bounds write is representable.
* The `#ifndef NDEBUG` overflow check in `Split` is conditional compilation;
  `Split` therefore takes a `debug : Bool` flag selecting the build.
  `debug = true` is a build where `NDEBUG` is not defined (check compiled
  in, overflow throws `std::runtime_error`, modelled by `Except.error`);
  `debug = false` is a release build where the check is compiled out.
* `std::atomic` makes `fetch_add` a single indivisible read-modify-write, so
  a concurrent execution of `Split` calls linearises to some sequential
  order of the fetch-and-adds; `splitSeq` runs such a linearisation and
  records the slot each call claims.
* Object identity (needed to state copy independence) is modelled by a
  `Heap`: a store from addresses to `SplitTimer` values, where a member
  function call on the object at address `a` updates only address `a`.
-/

namespace Putong

/-- A `std::chrono::time_point<clock, std::chrono::nanoseconds>` value as its
nanosecond count; value initialisation gives the epoch, 0 ns. -/
abbrev TimePoint := Int

/-- Conversion of a nanosecond difference to `duration<double>` seconds, i.e.
`duration.count()`, modelled exactly over `ℚ`. -/
def toSeconds (ns : Int) : ℚ := (ns : ℚ) / 1000000000

/-! ## The interval timer `putong::Timer` -/

/-- `putong::Timer`: `point start_{}; point stop_{};`. -/
structure Timer where
  start_ : TimePoint
  stop_ : TimePoint

namespace Timer

/-- The default-constructed timer (`Timer t;` without the start flag): both
time points value-initialised to the epoch. -/
def init : Timer := ⟨0, 0⟩

/-- `Timer::Start`: `start_ = clock::now();` with `now` the clock reading. -/
def Start (now : TimePoint) (t : Timer) : Timer := { t with start_ := now }

/-- `Timer::Stop`: `stop_ = clock::now();`. -/
def Stop (now : TimePoint) (t : Timer) : Timer := { t with stop_ := now }

/-- `Timer::seconds`: `duration diff = stop_ - start_; return diff.count();`. -/
def seconds (t : Timer) : ℚ := toSeconds (t.stop_ - t.start_)

end Timer

/-! ## The split timer `putong::SplitTimer<num_splits>` -/

/-- `putong::SplitTimer<num_splits>`: `point splits[num_splits + 1];` and
`std::atomic<size_t> split_idx = 0;`. `splits` is total on `Nat`; indices
`0 .. N` are the buffer, larger indices model memory outside it. -/
structure SplitTimer (N : Nat) where
  splits : Nat → TimePoint
  split_idx : Nat

namespace SplitTimer

variable {N : Nat}

/-- The default-constructed split timer (`SplitTimer<N> t;`): the timestamp
array value-initialised to epoch points, `split_idx = 0`. -/
def init (N : Nat) : SplitTimer N := ⟨fun _ => 0, 0⟩

/-- `SplitTimer::Start`: `splits[0] = clock::now(); split_idx.store(1);`. -/
def Start (now : TimePoint) (s : SplitTimer N) : SplitTimer N :=
  { splits := Function.update s.splits 0 now, split_idx := 1 }

/-- `SplitTimer::Split`. With the check compiled in (`debug = true`, `NDEBUG`
not defined): `if (split_idx > num_splits) throw std::runtime_error(...)`.
Then `auto idx = split_idx.fetch_add(1); splits[idx] = clock::now();`. -/
def Split (debug : Bool) (now : TimePoint) (s : SplitTimer N) :
    Except String (SplitTimer N) :=
  if debug = true ∧ N < s.split_idx then
    Except.error ("Putong SplitTimer overflows " ++ toString N ++ " splits.")
  else
    Except.ok
      { splits := Function.update s.splits s.split_idx now,
        split_idx := s.split_idx + 1 }

/-- The observable state after calling `Split`: the updated state on success,
the unchanged state when the debug check throws (the throw happens before the
`fetch_add`, so nothing was modified). -/
def splitRun (debug : Bool) (now : TimePoint) (s : SplitTimer N) : SplitTimer N :=
  match Split debug now s with
  | Except.ok s1 => s1
  | Except.error _ => s

/-- `SplitTimer::seconds`: for `i = 1 .. num_splits`,
`duration diff = splits[i] - splits[i - 1]; result.push_back(diff.count());`.
Element `j` (0-based) of the result is segment `splits[j+1] - splits[j]`. -/
def seconds (s : SplitTimer N) : List ℚ :=
  (List.range N).map (fun j => toSeconds (s.splits (j + 1) - s.splits j))

/-- The output loop of `SplitTimer::report`: every interval is written with
the stream's formatting (abstracted as `fmt`), followed by `","` except after
the last element. -/
def reportIntervals (fmt : ℚ → String) : List ℚ → String
  | [] => ""
  | [x] => fmt x
  | x :: y :: xs => fmt x ++ "," ++ reportIntervals fmt (y :: xs)

/-- `SplitTimer::report`: `auto intervals = seconds();` then the comma
separated write of every interval onto the stream. The numeric rendering
(`std::setprecision(precision) << intervals[i]`) is abstracted as
`fmt : ℚ → String`. -/
def report (fmt : ℚ → String) (s : SplitTimer N) : String :=
  reportIntervals fmt (seconds s)

/-- The copy constructor `SplitTimer(const SplitTimer& s)`: copies the
`num_splits + 1` array elements one by one and loads the atomic cursor value
into the fresh object's own cursor. Memory outside the new object's buffer is
not copied from the source; the fresh surroundings are modelled as epoch
values. -/
def copyConstruct (s : SplitTimer N) : SplitTimer N :=
  { splits := fun i => if i < N + 1 then s.splits i else 0,
    split_idx := s.split_idx }

/-- The copy assignment `operator=(const SplitTimer& other)`: copies the
`num_splits + 1` array elements into the destination and stores the loaded
cursor value; memory outside the destination's buffer is untouched. -/
def copyAssign (dst other : SplitTimer N) : SplitTimer N :=
  { splits := fun i => if i < N + 1 then other.splits i else dst.splits i,
    split_idx := other.split_idx }

/-! ## Single-thread operation sequences -/

/-- One member-function call on a split timer, carrying the clock reading the
call observes. -/
inductive Op where
  | start (now : TimePoint)
  | split (now : TimePoint)

/-- One call: `Start` always succeeds, `Split` may throw in a debug build. -/
def step (debug : Bool) (s : SplitTimer N) : Op → Except String (SplitTimer N)
  | Op.start now => Except.ok (Start now s)
  | Op.split now => Split debug now s

/-- Run a sequence of calls from a state; an overflow throw aborts the run. -/
def run (debug : Bool) (s : SplitTimer N) : List Op → Except String (SplitTimer N)
  | [] => Except.ok s
  | op :: ops =>
    match step debug s op with
    | Except.ok s1 => run debug s1 ops
    | Except.error e => Except.error e

/-- The call sequence `Start` followed by `k` `Split`s, where the clock reads
`t j` at the `j`-th capture (capture 0 is the `Start`). -/
def recOps (t : Nat → TimePoint) (k : Nat) : List Op :=
  Op.start (t 0) :: (List.range k).map (fun j => Op.split (t (j + 1)))

/-! ## Linearised concurrent `Split` calls -/

/-- A linearisation of concurrent `Split` calls: since `fetch_add` on the
atomic cursor is a single indivisible read-modify-write, any concurrent
execution of `Split` calls is equivalent to running them in the order their
fetch-and-adds took effect. `splitSeq` runs the calls in that order and
records the slot index each call claimed (the pre-increment cursor value);
`none` when a debug-build call threw. -/
def splitSeq (debug : Bool) (s : SplitTimer N) :
    List TimePoint → Option (List Nat × SplitTimer N)
  | [] => some ([], s)
  | t :: ts =>
    match Split debug t s with
    | Except.ok s1 =>
      match splitSeq debug s1 ts with
      | some (slots, sf) => some (s.split_idx :: slots, sf)
      | none => none
    | Except.error _ => none

/-! ## Object identity -/

/-- A store of `SplitTimer` objects, indexed by address. -/
def Heap (N : Nat) := Nat → SplitTimer N

/-- Call a member function (as a state transformer `f`) on the object at
address `a`: only address `a` changes. -/
def heapApply (f : SplitTimer N → SplitTimer N) (a : Nat) (h : Heap N) : Heap N :=
  Function.update h a (f (h a))

/-- `SplitTimer<N> y = x;` at a fresh address `b`: the copy constructor runs
on the object at `a` and the new object lives at `b`. -/
def copyConstructAt (a b : Nat) (h : Heap N) : Heap N :=
  Function.update h b (copyConstruct (h a))

end SplitTimer

end Putong

/-! ## Basic lemmas about the embedded operations -/

namespace Putong

namespace SplitTimer

variable {N : Nat}

/-- In a debug build a successful `Split` found the cursor within bounds and
performed the fetch-and-add write. -/
theorem split_true_ok {now : TimePoint} {s r : SplitTimer N}
    (h : Split true now s = Except.ok r) :
    s.split_idx ≤ N ∧
      r = { splits := Function.update s.splits s.split_idx now,
            split_idx := s.split_idx + 1 } := by
  unfold Split at h
  split_ifs at h with hc
  have h2 := Except.ok.inj h
  simp only [true_and, not_lt] at hc
  exact ⟨hc, h2.symm⟩

/-- In a debug build, `Split` with the cursor within bounds succeeds and
writes the clock reading at the pre-increment cursor position. -/
theorem split_true_le {now : TimePoint} {s : SplitTimer N} (h : s.split_idx ≤ N) :
    Split true now s =
      Except.ok { splits := Function.update s.splits s.split_idx now,
                  split_idx := s.split_idx + 1 } := by
  unfold Split
  rw [if_neg]
  simp only [true_and, not_lt]
  exact h

/-- In a release build (`NDEBUG` defined) `Split` never throws: the
fetch-and-add write happens at the pre-increment cursor whatever its value. -/
theorem split_false_ok (now : TimePoint) (s : SplitTimer N) :
    Split false now s =
      Except.ok { splits := Function.update s.splits s.split_idx now,
                  split_idx := s.split_idx + 1 } := by
  unfold Split
  rw [if_neg]
  simp

/-- Running a concatenated call sequence runs the two parts in order. -/
theorem run_append (debug : Bool) (s : SplitTimer N) (l1 l2 : List Op) :
    run debug s (l1 ++ l2) =
      match run debug s l1 with
      | Except.ok s1 => run debug s1 l2
      | Except.error e => Except.error e := by
  induction l1 generalizing s with
  | nil => rfl
  | cons op l ih =>
    simp only [List.cons_append, run]
    cases h : step debug s op with
    | ok s1 => exact ih s1
    | error e => rfl

/-- A recording of `k + 1` splits is a recording of `k` splits followed by
one further `Split`. -/
theorem recOps_succ (t : Nat → TimePoint) (k : Nat) :
    recOps t (k + 1) = recOps t k ++ [Op.split (t (k + 1))] := by
  simp [recOps, List.range_succ]

/-- Running `Start` followed by `k ≤ N` `Split`s from any state succeeds,
leaves the cursor at `k + 1`, stores the `j`-th clock reading in slot `j` for
`j ≤ k`, and leaves every slot beyond `k` as it was. -/
theorem run_recOps (s : SplitTimer N) (t : Nat → TimePoint) (k : Nat)
    (hk : k ≤ N) :
    ∃ r, run true s (recOps t k) = Except.ok r ∧ r.split_idx = k + 1 ∧
      (∀ j, j ≤ k → r.splits j = t j) ∧ (∀ j, k < j → r.splits j = s.splits j) := by
  induction k with
  | zero =>
    refine ⟨Start (t 0) s, rfl, rfl, ?_, ?_⟩
    · intro j hj
      have : j = 0 := by omega
      subst this
      simp [Start]
    · intro j hj
      exact Function.update_noteq (by omega) _ _
  | succ k ih =>
    obtain ⟨r, hr, hidx, hin, hout⟩ := ih (by omega)
    have hle : r.split_idx ≤ N := by omega
    refine ⟨{ splits := Function.update r.splits r.split_idx (t (k + 1)),
              split_idx := r.split_idx + 1 }, ?_, ?_, ?_, ?_⟩
    · rw [recOps_succ, run_append, hr]
      simp only [run, step, split_true_le hle]
    · show r.split_idx + 1 = k + 1 + 1
      omega
    · intro j hj
      show Function.update r.splits r.split_idx (t (k + 1)) j = t j
      rcases Nat.lt_or_ge j (k + 1) with hj1 | hj1
      · rw [Function.update_noteq (by omega) _ _]
        exact hin j (by omega)
      · have hjr : j = r.split_idx := by omega
        subst hjr
        rw [Function.update_same, hidx]
    · intro j hj
      show Function.update r.splits r.split_idx (t (k + 1)) j = s.splits j
      rw [Function.update_noteq (by omega) _ _]
      exact hout j (by omega)

/-- A linearisation of `Split` calls that fits in the remaining capacity
succeeds, claims the consecutive slot indices starting at the current cursor
(one per call, all distinct), and advances the cursor by the number of
calls. -/
theorem splitSeq_spec (times : List TimePoint) :
    ∀ s : SplitTimer N, s.split_idx + times.length ≤ N + 1 →
    ∃ slots sf, splitSeq true s times = some (slots, sf) ∧
      slots = (List.range times.length).map (fun p => s.split_idx + p) ∧
      sf.split_idx = s.split_idx + times.length := by
  induction times with
  | nil =>
    intro s _
    exact ⟨[], s, rfl, rfl, rfl⟩
  | cons tm ts ih =>
    intro s h
    simp only [List.length_cons] at h
    have hle : s.split_idx ≤ N := by omega
    obtain ⟨slots, sf, hseq, hslots, hidx⟩ :=
      ih { splits := Function.update s.splits s.split_idx tm,
           split_idx := s.split_idx + 1 }
        (by show s.split_idx + 1 + ts.length ≤ N + 1; omega)
    dsimp only at hslots hidx
    refine ⟨s.split_idx :: slots, sf, ?_, ?_, ?_⟩
    · have hsp : Split true tm s =
          Except.ok { splits := Function.update s.splits s.split_idx tm,
                      split_idx := s.split_idx + 1 } := split_true_le hle
      simp only [splitSeq, hsp, hseq]
    · rw [hslots]
      simp only [List.length_cons, List.range_succ_eq_map, List.map_cons, List.map_map,
        Nat.add_zero]
      refine congrArg (List.cons s.split_idx) (List.map_congr_left ?_)
      intro p _
      simp only [Function.comp_apply]
      omega
    · simp only [List.length_cons]
      omega

/-- `seconds` always returns exactly `N` values. -/
theorem seconds_length (s : SplitTimer N) : (seconds s).length = N := by
  simp [seconds]

/-- Element `i` of `seconds` is segment `splits[i+1] - splits[i]` in seconds. -/
theorem seconds_getElem (s : SplitTimer N) (i : Nat) (h : i < N) :
    (seconds s)[i]? = some (toSeconds (s.splits (i + 1) - s.splits i)) := by
  simp [seconds, List.getElem?_map, List.getElem?_range h]

/-- The accumulator of `String.intercalate.go` factors out as a prefix. -/
theorem intercalate_go_factor (s : String) (as : List String) :
    ∀ a1 a2 : String, String.intercalate.go (a1 ++ a2) s as =
      a1 ++ String.intercalate.go a2 s as := by
  induction as with
  | nil =>
    intro a1 a2
    rfl
  | cons a as ih =>
    intro a1 a2
    show String.intercalate.go (a1 ++ a2 ++ s ++ a) s as = _
    have e1 : a1 ++ a2 ++ s ++ a = a1 ++ (a2 ++ s ++ a) := by
      rw [String.append_assoc a1 a2 s, String.append_assoc a1 (a2 ++ s) a]
    rw [e1, ih a1 (a2 ++ s ++ a)]
    rfl

/-- `String.intercalate` on two or more pieces peels off the head and one
separator. -/
theorem intercalate_cons₂ (s a b : String) (l : List String) :
    String.intercalate s (a :: b :: l) = a ++ s ++ String.intercalate s (b :: l) := by
  show String.intercalate.go (a ++ s ++ b) s l = _
  rw [intercalate_go_factor s l (a ++ s) b]
  rfl

/-- Writing `reportIntervals` is the comma-separated join with no trailing
separator. -/
theorem reportIntervals_eq_intercalate (fmt : ℚ → String) (l : List ℚ) :
    reportIntervals fmt l = String.intercalate "," (l.map fmt) := by
  induction l with
  | nil => rfl
  | cons x xs ih =>
    cases xs with
    | nil => rfl
    | cons y ys =>
      rw [reportIntervals, ih]
      simp only [List.map_cons]
      rw [intercalate_cons₂]

end SplitTimer

end Putong

/-! ## The claims -/

namespace Putong

/-- Claim C7: for every interval timer, `seconds()` returns `stop - start` as
a floating-point number of seconds, computed from whatever values the two
timestamps currently hold; in particular, with a fake clock returning t = 0 at
`Start()` and t = 1.234 s (1234000000 ns) at `Stop()`, `seconds()` returns
1.234. -/
theorem timer_seconds_interval (t : Timer) :
    Timer.seconds t = toSeconds (t.stop_ - t.start_) ∧
    Timer.seconds (Timer.Stop 1234000000 (Timer.Start 0 Timer.init)) =
      1234 / 1000 := by
  constructor
  · rfl
  · show toSeconds (1234000000 - 0) = 1234 / 1000
    norm_num [toSeconds]

/-- Claim C1 (evidence of the code bug): run `Start()` and one `Split()` on a
`SplitTimer<1>`, so the cursor has reached `N + 1 = 2`. In a debug build the
next `Split()` throws the overflow error. In a release build (`NDEBUG`
defined) the check is compiled out: the very same call silently fetch-adds
and writes the timestamp into slot 2, outside the 2-element buffer
(`¬ 2 < 1 + 1`), so there the overflow IS silently absorbed — the release
configuration contradicts the claim that overflow is always signalled. -/
theorem splitTimer_overflow_release_out_of_bounds :
    ∃ s : SplitTimer 1,
      SplitTimer.run true (SplitTimer.init 1)
          [SplitTimer.Op.start 0, SplitTimer.Op.split 10] = Except.ok s ∧
      s.split_idx = 2 ∧
      SplitTimer.Split true 20 s =
        Except.error "Putong SplitTimer overflows 1 splits." ∧
      ∃ s2 : SplitTimer 1, SplitTimer.Split false 20 s = Except.ok s2 ∧
        s2.splits 2 = 20 ∧ ¬ 2 < 1 + 1 ∧ s2.split_idx = 3 := by
  refine ⟨⟨Function.update (Function.update (fun _ => 0) 0 0) 1 10, 2⟩,
    ?_, rfl, ?_, ⟨Function.update
      (Function.update (Function.update (fun _ => 0) 0 0) 1 10) 2 20, 3⟩,
    ?_, ?_, by decide, rfl⟩
  · rfl
  · rfl
  · rfl
  · rfl

/-- Claim C10: with the overflow check enabled (debug build), every timestamp
write performed by `Start()` or a returning `Split()` lands in a slot index in
`0 .. N`, inside the `N + 1` element buffer; in particular `Split()` on a
default-constructed, never-started timer writes `splits[0]` and sets the
cursor to 1, behaving like an initial capture of slot 0. -/
theorem splitTimer_debug_writes_in_bounds (N : Nat) (hN : 0 < N) :
    (∀ (s r : SplitTimer N) (now : TimePoint),
        SplitTimer.Split true now s = Except.ok r →
          s.split_idx ≤ N ∧
            r.splits = Function.update s.splits s.split_idx now) ∧
    (∀ (s : SplitTimer N) (now : TimePoint),
        (SplitTimer.Start now s).splits = Function.update s.splits 0 now ∧
          0 ≤ N) ∧
    (∀ now : TimePoint,
        SplitTimer.Split true now (SplitTimer.init N) =
          Except.ok { splits := Function.update (SplitTimer.init N).splits 0 now,
                      split_idx := 1 }) := by
  refine ⟨?_, ?_, ?_⟩
  · intro s r now h
    obtain ⟨h1, h2⟩ := SplitTimer.split_true_ok h
    exact ⟨h1, by rw [h2]⟩
  · intro s now
    exact ⟨rfl, Nat.zero_le N⟩
  · intro now
    exact SplitTimer.split_true_le (Nat.zero_le N)

/-- Witness for C10 at `N = 3`: a `Split()` on the never-started default
timer writes slot 0 and sets the cursor to 1. -/
theorem splitTimer_debug_writes_in_bounds_witness :
    0 < 3 ∧
      SplitTimer.Split true 7 (SplitTimer.init 3) =
        Except.ok { splits := Function.update (SplitTimer.init 3).splits 0 7,
                    split_idx := 1 } :=
  ⟨by decide, (splitTimer_debug_writes_in_bounds 3 (by decide)).2.2 7⟩

/-- Debug-build runs keep the cursor within `N + 1`: the bound is an
invariant of `Start` and successful `Split`. -/
theorem run_true_idx_le (ops : List SplitTimer.Op) :
    ∀ s : SplitTimer N, s.split_idx ≤ N + 1 →
      ∀ r, SplitTimer.run true s ops = Except.ok r → r.split_idx ≤ N + 1 := by
  induction ops with
  | nil =>
    intro s hs r hr
    simp only [SplitTimer.run] at hr
    exact Except.ok.inj hr ▸ hs
  | cons op l ih =>
    intro s hs r hr
    cases op with
    | start now =>
      simp only [SplitTimer.run, SplitTimer.step] at hr
      exact ih (SplitTimer.Start now s) (by show 1 ≤ N + 1; omega) r hr
    | split now =>
      simp only [SplitTimer.run, SplitTimer.step] at hr
      cases h : SplitTimer.Split true now s with
      | ok s1 =>
        rw [h] at hr
        obtain ⟨h1, h2⟩ := SplitTimer.split_true_ok h
        refine ih s1 ?_ r hr
        rw [h2]
        show s.split_idx + 1 ≤ N + 1
        omega
      | error e =>
        rw [h] at hr
        exact Except.noConfusion hr

/-- Claim C3: the cursor `split_idx` starts at 0 on construction, becomes 1
after `Start()` (which writes `splits[0]`), increases by exactly one on each
successful `Split()` (which writes `splits` at the pre-increment cursor, so
the cursor strictly increases), and along any successful debug-build call
sequence from a fresh timer the cursor never exceeds `N + 1`: the reachable
cursor values form the chain `0, 1, 2, …, N + 1`. -/
theorem splitTimer_cursor_invariant (N : Nat) (hN : 0 < N) :
    (SplitTimer.init N).split_idx = 0 ∧
    (∀ (s : SplitTimer N) (now : TimePoint),
        (SplitTimer.Start now s).split_idx = 1 ∧
        (SplitTimer.Start now s).splits 0 = now) ∧
    (∀ (s r : SplitTimer N) (now : TimePoint),
        SplitTimer.Split true now s = Except.ok r →
          r.split_idx = s.split_idx + 1 ∧ r.splits s.split_idx = now ∧
            s.split_idx < r.split_idx) ∧
    (∀ (ops : List SplitTimer.Op) (r : SplitTimer N),
        SplitTimer.run true (SplitTimer.init N) ops = Except.ok r →
          r.split_idx ≤ N + 1) := by
  refine ⟨rfl, ?_, ?_, ?_⟩
  · intro s now
    exact ⟨rfl, by show Function.update s.splits 0 now 0 = now; simp⟩
  · intro s r now h
    obtain ⟨h1, h2⟩ := SplitTimer.split_true_ok h
    subst h2
    refine ⟨rfl, ?_, by show s.split_idx < s.split_idx + 1; omega⟩
    show Function.update s.splits s.split_idx now s.split_idx = now
    simp
  · intro ops r hr
    exact run_true_idx_le ops (SplitTimer.init N) (by show 0 ≤ N + 1; omega) r hr

/-- Witness for C3 at `N = 2`: a fresh timer run through `Start` and two
`Split`s ends with cursor `3 ≤ N + 1`. -/
theorem splitTimer_cursor_invariant_witness :
    0 < 2 ∧
      (⟨Function.update (Function.update (Function.update
          (fun _ => (0 : TimePoint)) 0 5) 1 6) 2 7, 3⟩ :
        SplitTimer 2).split_idx ≤ 2 + 1 :=
  ⟨by decide,
    (splitTimer_cursor_invariant 2 (by decide)).2.2.2
      [SplitTimer.Op.start 5, SplitTimer.Op.split 6, SplitTimer.Op.split 7]
      ⟨Function.update (Function.update (Function.update
          (fun _ => (0 : TimePoint)) 0 5) 1 6) 2 7, 3⟩ rfl⟩

/-- Claim C2: `seconds()` returns exactly `N` duration values in recording
order, element `i - 1` (1-based slot `i`) being `splits[i] - splits[i-1]` in
seconds; it is a pure (`const`) read of the state, hence idempotent; and with
a fake clock advancing by a fixed increment `d` between every capture,
`Start()` followed by `N` `Split()`s makes every returned value equal `d`. -/
theorem splitTimer_seconds_values (N : Nat) (hN : 0 < N) :
    (∀ s : SplitTimer N, (SplitTimer.seconds s).length = N) ∧
    (∀ (s : SplitTimer N) (i : Nat), i < N →
        (SplitTimer.seconds s)[i]? =
          some (toSeconds (s.splits (i + 1) - s.splits i))) ∧
    (∀ t0 d : TimePoint, ∃ r : SplitTimer N,
        SplitTimer.run true (SplitTimer.init N)
            (SplitTimer.recOps (fun j => t0 + (j : Int) * d) N) = Except.ok r ∧
          ∀ x ∈ SplitTimer.seconds r, x = toSeconds d) := by
  refine ⟨fun s => SplitTimer.seconds_length s,
    fun s i hi => SplitTimer.seconds_getElem s i hi, ?_⟩
  intro t0 d
  obtain ⟨r, hr, hidx, hin, hout⟩ :=
    SplitTimer.run_recOps (SplitTimer.init N) (fun j => t0 + (j : Int) * d) N
      (le_refl N)
  refine ⟨r, hr, ?_⟩
  intro x hx
  simp only [SplitTimer.seconds, List.mem_map, List.mem_range] at hx
  obtain ⟨j, hj, rfl⟩ := hx
  rw [hin (j + 1) (by omega), hin j (by omega)]
  congr 1
  push_cast
  ring

/-- Witness for C2 at `N = 2`: element 0 of `seconds` on the fresh timer is
segment `splits[1] - splits[0]`. -/
theorem splitTimer_seconds_values_witness :
    0 < 2 ∧
      (SplitTimer.seconds (SplitTimer.init 2))[0]? =
        some (toSeconds ((SplitTimer.init 2).splits (0 + 1) -
          (SplitTimer.init 2).splits 0)) :=
  ⟨by decide,
    (splitTimer_seconds_values 2 (by decide)).2.1 (SplitTimer.init 2) 0 (by decide)⟩

/-- Claim C6: in any state, `Start()` writes `splits[0] = now()` and resets
the cursor to 1, always succeeding; after a subsequent full recording
(`Start` plus `N` `Split`s with capture times `t 0 .. t N`), `seconds()` is
determined by the new capture times alone — the prior state `s` does not
appear — so it reflects only the new recording sequence. -/
theorem splitTimer_start_restarts (N : Nat) (hN : 0 < N) (s : SplitTimer N)
    (t : Nat → TimePoint) :
    (SplitTimer.Start (t 0) s).splits 0 = t 0 ∧
    (SplitTimer.Start (t 0) s).split_idx = 1 ∧
    ∃ r : SplitTimer N,
      SplitTimer.run true s (SplitTimer.recOps t N) = Except.ok r ∧
        ∀ i, i < N →
          (SplitTimer.seconds r)[i]? = some (toSeconds (t (i + 1) - t i)) := by
  refine ⟨by show Function.update s.splits 0 (t 0) 0 = t 0; simp, rfl, ?_⟩
  obtain ⟨r, hr, hidx, hin, hout⟩ := SplitTimer.run_recOps s t N (le_refl N)
  refine ⟨r, hr, ?_⟩
  intro i hi
  rw [SplitTimer.seconds_getElem r i hi, hin (i + 1) (by omega), hin i (by omega)]

/-- Witness for C6 at `N = 1` from the fresh timer with capture times
`t j = j`. -/
theorem splitTimer_start_restarts_witness :
    0 < 1 ∧
      ((SplitTimer.Start ((0 : Nat) : Int) (SplitTimer.init 1)).splits 0 =
          ((0 : Nat) : Int) ∧
        (SplitTimer.Start ((0 : Nat) : Int) (SplitTimer.init 1)).split_idx = 1 ∧
        ∃ r : SplitTimer 1,
          SplitTimer.run true (SplitTimer.init 1)
              (SplitTimer.recOps (fun j : Nat => (j : Int)) 1) = Except.ok r ∧
            ∀ i : Nat, i < 1 →
              (SplitTimer.seconds r)[i]? =
                some (toSeconds (((i + 1 : Nat) : Int) - ((i : Nat) : Int)))) :=
  ⟨by decide,
    splitTimer_start_restarts 1 (by decide) (SplitTimer.init 1)
      (fun j : Nat => (j : Int))⟩

/-- Claim C9: `Start()` modifies only `splits[0]` and the cursor — every slot
with index `≠ 0` is untouched. Consequently, after a restart followed by only
`k < N` new `Split()`s, every slot beyond `k` still holds its stale value
from before, and the corresponding `seconds()` entries (indices `≥ k + 1`)
coincide with the stale entries computed from the prior state. -/
theorem splitTimer_start_frame (N : Nat) (hN : 0 < N) (s : SplitTimer N)
    (now : TimePoint) :
    (∀ i, i ≠ 0 → (SplitTimer.Start now s).splits i = s.splits i) ∧
    (∀ (t : Nat → TimePoint) (k : Nat), k < N →
        ∃ r : SplitTimer N,
          SplitTimer.run true s (SplitTimer.recOps t k) = Except.ok r ∧
            (∀ j, k < j → r.splits j = s.splits j) ∧
            (∀ i, k + 1 ≤ i → i < N →
              (SplitTimer.seconds r)[i]? = (SplitTimer.seconds s)[i]?)) := by
  constructor
  · intro i hi
    show Function.update s.splits 0 now i = s.splits i
    exact Function.update_noteq hi _ _
  · intro t k hk
    obtain ⟨r, hr, hidx, hin, hout⟩ := SplitTimer.run_recOps s t k (by omega)
    refine ⟨r, hr, hout, ?_⟩
    intro i h1 h2
    rw [SplitTimer.seconds_getElem r i h2, SplitTimer.seconds_getElem s i h2,
      hout (i + 1) (by omega), hout i (by omega)]

/-- Witness for C9 at `N = 2`, restarting the fresh timer at time 9. -/
theorem splitTimer_start_frame_witness :
    0 < 2 ∧
      ((∀ i, i ≠ 0 →
          (SplitTimer.Start 9 (SplitTimer.init 2)).splits i =
            (SplitTimer.init 2).splits i) ∧
        (∀ (t : Nat → TimePoint) (k : Nat), k < 2 →
            ∃ r : SplitTimer 2,
              SplitTimer.run true (SplitTimer.init 2) (SplitTimer.recOps t k) =
                Except.ok r ∧
                (∀ j, k < j → r.splits j = (SplitTimer.init 2).splits j) ∧
                (∀ i, k + 1 ≤ i → i < 2 →
                  (SplitTimer.seconds r)[i]? =
                    (SplitTimer.seconds (SplitTimer.init 2))[i]?))) :=
  ⟨by decide, splitTimer_start_frame 2 (by decide) (SplitTimer.init 2) 9⟩

/-- Claim C8: `report(sink, precision)` writes exactly the values `seconds()`
returns, rendered by the stream formatting `fmt`, as a comma-separated list
with no trailing separator (the `String.intercalate` of the rendered
values); for capacity `N = 3` with a fake clock ticking 50 ms (50000000 ns)
per capture over `Start, Split, Split, Split`, `seconds()` is
`[0.05, 0.05, 0.05]` and, when `fmt` renders `1/20` as `"0.05"`, `report`
writes `"0.05,0.05,0.05"`. -/
theorem splitTimer_report_comma_separated (N : Nat) (hN : 0 < N)
    (fmt : ℚ → String) (s : SplitTimer N) :
    SplitTimer.report fmt s =
      String.intercalate "," ((SplitTimer.seconds s).map fmt) ∧
    (∀ t0 : TimePoint, ∃ r : SplitTimer 3,
        SplitTimer.run true (SplitTimer.init 3)
            (SplitTimer.recOps (fun j => t0 + (j : Int) * 50000000) 3) =
          Except.ok r ∧
          SplitTimer.seconds r = [1 / 20, 1 / 20, 1 / 20] ∧
          (fmt (1 / 20) = "0.05" →
            SplitTimer.report fmt r = "0.05,0.05,0.05")) := by
  constructor
  · exact SplitTimer.reportIntervals_eq_intercalate fmt (SplitTimer.seconds s)
  · intro t0
    obtain ⟨r, hr, hidx, hin, hout⟩ :=
      SplitTimer.run_recOps (SplitTimer.init 3)
        (fun j => t0 + (j : Int) * 50000000) 3 (le_refl 3)
    have e0 := hin 0 (by omega)
    have e1 := hin 1 (by omega)
    have e2 := hin 2 (by omega)
    have e3 := hin 3 (by omega)
    have hsec : SplitTimer.seconds r = [1 / 20, 1 / 20, 1 / 20] := by
      show (List.range 3).map
          (fun j => toSeconds (r.splits (j + 1) - r.splits j)) = _
      simp only [List.range_succ, List.range_zero, List.map_append,
        List.map_cons, List.map_nil, List.nil_append, List.append_assoc,
        List.singleton_append]
      rw [show (0 : Nat) + 1 = 1 from rfl, show (1 : Nat) + 1 = 2 from rfl,
        show (2 : Nat) + 1 = 3 from rfl, e0, e1, e2, e3]
      norm_num [toSeconds]
    refine ⟨r, hr, hsec, ?_⟩
    intro hf
    show SplitTimer.reportIntervals fmt (SplitTimer.seconds r) = _
    rw [hsec, SplitTimer.reportIntervals, SplitTimer.reportIntervals,
      SplitTimer.reportIntervals, hf]
    rfl

/-- Witness for C8 at `N = 3` with a formatter rendering every value as
`"0.05"` applied to the fresh timer. -/
theorem splitTimer_report_comma_separated_witness :
    0 < 3 ∧
      SplitTimer.report (fun _ => "0.05") (SplitTimer.init 3) =
        String.intercalate ","
          ((SplitTimer.seconds (SplitTimer.init 3)).map (fun _ => "0.05")) :=
  ⟨by decide,
    (splitTimer_report_comma_separated 3 (by decide) (fun _ => "0.05")
      (SplitTimer.init 3)).1⟩

/-- Claim C4: because the cursor advance is the single indivisible
`fetch_add`, any concurrent execution of `T ≤ N` `Split()` calls on a started
timer (cursor 1) linearises to some order of the fetch-and-adds; run in that
order, every call claims a distinct slot (the claimed list is the duplicate
free `1, 2, …, T`), so no two threads write the same slot, and when `T = N`
the claimed slots are exactly all of `1 .. N` — each split slot written
exactly once. -/
theorem splitTimer_concurrent_distinct_slots (N T : Nat) (hN : 0 < N)
    (hT : T ≤ N) (times : List TimePoint) (hlen : times.length = T)
    (s : SplitTimer N) (hs : s.split_idx = 1) :
    ∃ (slots : List Nat) (sf : SplitTimer N),
      SplitTimer.splitSeq true s times = some (slots, sf) ∧
      slots = (List.range T).map (fun p => 1 + p) ∧
      slots.Nodup ∧
      (T = N → ∀ j, j ∈ slots ↔ 1 ≤ j ∧ j ≤ N) ∧
      sf.split_idx = 1 + T := by
  obtain ⟨slots, sf, hseq, hslots, hidx⟩ :=
    SplitTimer.splitSeq_spec times s (by omega)
  rw [hs, hlen] at hslots hidx
  refine ⟨slots, sf, hseq, hslots, ?_, ?_, hidx⟩
  · rw [hslots]
    exact List.Nodup.map (fun p q hpq => by omega) (List.nodup_range T)
  · intro hTN j
    subst hTN
    rw [hslots]
    simp only [List.mem_map, List.mem_range]
    constructor
    · rintro ⟨p, hp, rfl⟩
      omega
    · intro hj
      exact ⟨j - 1, by omega, by omega⟩

/-- Witness for C4: `N = T = 2`, two linearised `Split`s on a just-started
timer. -/
theorem splitTimer_concurrent_distinct_slots_witness :
    0 < 2 ∧ 2 ≤ 2 ∧ ([(10 : TimePoint), 20]).length = 2 ∧
      (⟨fun _ => (0 : TimePoint), 1⟩ : SplitTimer 2).split_idx = 1 ∧
      ∃ (slots : List Nat) (sf : SplitTimer 2),
        SplitTimer.splitSeq true (⟨fun _ => (0 : TimePoint), 1⟩ : SplitTimer 2)
            [(10 : TimePoint), 20] = some (slots, sf) ∧
        slots = (List.range 2).map (fun p => 1 + p) ∧
        slots.Nodup ∧
        (2 = 2 → ∀ j, j ∈ slots ↔ 1 ≤ j ∧ j ≤ 2) ∧
        sf.split_idx = 1 + 2 :=
  ⟨by decide, by decide, by decide, rfl,
    splitTimer_concurrent_distinct_slots 2 2 (by decide) (by decide)
      [(10 : TimePoint), 20] (by decide) ⟨fun _ => (0 : TimePoint), 1⟩ rfl⟩

/-- Claim C5: copy construction and copy assignment produce a fully
independent instance: every one of the `N + 1` timestamp slots of the copy
equals the source's at the moment of copy, the cursor's current value is
copied into a fresh independently-mutable cursor, and subsequent `Split()` or
`Start()` calls on the copy (at its own address `b`) never mutate the
original object at address `a`, and vice versa. -/
theorem splitTimer_copy_independent (N : Nat) (hN : 0 < N)
    (h : SplitTimer.Heap N) (a b : Nat) (hab : a ≠ b) (debug : Bool)
    (now now2 now3 : TimePoint) :
    (∀ i, i < N + 1 →
        (SplitTimer.copyConstructAt a b h b).splits i = (h a).splits i) ∧
    (SplitTimer.copyConstructAt a b h b).split_idx = (h a).split_idx ∧
    SplitTimer.copyConstructAt a b h a = h a ∧
    SplitTimer.heapApply (SplitTimer.splitRun debug now) b
        (SplitTimer.copyConstructAt a b h) a =
      SplitTimer.copyConstructAt a b h a ∧
    SplitTimer.heapApply (SplitTimer.Start now2) b
        (SplitTimer.copyConstructAt a b h) a =
      SplitTimer.copyConstructAt a b h a ∧
    SplitTimer.heapApply (SplitTimer.splitRun debug now3) a
        (SplitTimer.copyConstructAt a b h) b =
      SplitTimer.copyConstructAt a b h b ∧
    (∀ dst : SplitTimer N,
        (SplitTimer.copyAssign dst (h a)).split_idx = (h a).split_idx ∧
        ∀ i, i < N + 1 →
          (SplitTimer.copyAssign dst (h a)).splits i = (h a).splits i) := by
  refine ⟨?_, ?_, ?_, ?_, ?_, ?_, ?_⟩
  · intro i hi
    show (Function.update h b (SplitTimer.copyConstruct (h a)) b).splits i = _
    rw [Function.update_same]
    show (if i < N + 1 then (h a).splits i else 0) = _
    rw [if_pos hi]
  · show (Function.update h b (SplitTimer.copyConstruct (h a)) b).split_idx = _
    rw [Function.update_same]
    rfl
  · exact Function.update_noteq hab _ _
  · exact Function.update_noteq hab _ _
  · exact Function.update_noteq hab _ _
  · exact Function.update_noteq (fun e => hab e.symm) _ _
  · intro dst
    refine ⟨rfl, ?_⟩
    intro i hi
    show (if i < N + 1 then (h a).splits i else dst.splits i) = _
    rw [if_pos hi]

/-- Witness for C5 at `N = 1` with the heap holding fresh timers at
addresses 0 and 1. -/
theorem splitTimer_copy_independent_witness :
    0 < 1 ∧ (0 : Nat) ≠ 1 ∧
      ((∀ i, i < 1 + 1 →
          (SplitTimer.copyConstructAt 0 1 (fun _ => SplitTimer.init 1) 1).splits i =
            ((fun _ => SplitTimer.init 1 : SplitTimer.Heap 1) 0).splits i) ∧
        (SplitTimer.copyConstructAt 0 1 (fun _ => SplitTimer.init 1) 1).split_idx =
          ((fun _ => SplitTimer.init 1 : SplitTimer.Heap 1) 0).split_idx ∧
        SplitTimer.copyConstructAt 0 1 (fun _ => SplitTimer.init 1) 0 =
          (fun _ => SplitTimer.init 1 : SplitTimer.Heap 1) 0 ∧
        SplitTimer.heapApply (SplitTimer.splitRun true 4) 1
            (SplitTimer.copyConstructAt 0 1 (fun _ => SplitTimer.init 1)) 0 =
          SplitTimer.copyConstructAt 0 1 (fun _ => SplitTimer.init 1) 0 ∧
        SplitTimer.heapApply (SplitTimer.Start 5) 1
            (SplitTimer.copyConstructAt 0 1 (fun _ => SplitTimer.init 1)) 0 =
          SplitTimer.copyConstructAt 0 1 (fun _ => SplitTimer.init 1) 0 ∧
        SplitTimer.heapApply (SplitTimer.splitRun true 6) 0
            (SplitTimer.copyConstructAt 0 1 (fun _ => SplitTimer.init 1)) 1 =
          SplitTimer.copyConstructAt 0 1 (fun _ => SplitTimer.init 1) 1 ∧
        (∀ dst : SplitTimer 1,
            (SplitTimer.copyAssign dst
                ((fun _ => SplitTimer.init 1 : SplitTimer.Heap 1) 0)).split_idx =
              ((fun _ => SplitTimer.init 1 : SplitTimer.Heap 1) 0).split_idx ∧
            ∀ i, i < 1 + 1 →
              (SplitTimer.copyAssign dst
                  ((fun _ => SplitTimer.init 1 : SplitTimer.Heap 1) 0)).splits i =
                ((fun _ => SplitTimer.init 1 : SplitTimer.Heap 1) 0).splits i)) :=
  ⟨by decide, by decide,
    splitTimer_copy_independent 1 (by decide) (fun _ => SplitTimer.init 1) 0 1
      (by decide) true 4 5 6⟩

end Putong
